import Mathlib

/-!
# GoGrapher similarity pipeline — shallow embedding and verification

This file embeds the core of the GoGrapher repository (src/grapher.rs,
src/control_flow_graph.rs, src/disassembly.rs, src/match.rs,
src/compare_report.rs) into Lean and proves properties of the embedding.

Modelling conventions:

* Rust `f32` similarity values are modelled as `Option ℚ`: `some q` is a
  finite value computed by exact rational arithmetic, `none` models the IEEE
  NaN produced by the `0.0 / 0.0` divisions the code can perform (empty
  slices).  All f32 comparisons involving NaN are false, which the helper
  functions `f32Lt`, `f32Ge1`, `f32Gt` reproduce.  Where the code divides by
  a provably non-zero count the result stays in `some`.
* `u64` and `usize` are modelled as `Nat`; none of the verified paths can
  overflow 64 bits on the inputs considered.
* The chibihash fingerprints are modelled by their exact hash input: a
  block's hash is the concatenation of its instructions' byte strings (the
  bytes fed to the streaming hasher), and a graph's hash is the list of its
  blocks' hashes (the hasher consumes each block hash as a fixed-width
  8-byte chunk, so the list of hashes is a faithful model of the hash
  input).  This idealises the 64-bit hash as collision free, which is the
  reading the specification itself mandates for the kernel.
-/

namespace GoGrapher

/-- Model of `smda::function::Instruction`: only the `bytes` field is used by
the similarity kernel (equality key and hash input). -/
structure Instruction where
  bytes : String
deriving DecidableEq, Repr

instance : Inhabited Instruction := ⟨⟨""⟩⟩

/-- Model of `BasicBlock` (src/control_flow_graph.rs).  `hash` is modelled by
the exact byte string fed to the streaming hasher. -/
structure BasicBlock where
  offset : Nat
  instructions : List Instruction
  in_refs : List Nat
  out_refs : List Nat
  hash : String
deriving DecidableEq, Repr

instance : Inhabited BasicBlock := ⟨⟨0, [], [], [], ""⟩⟩

/-- `BasicBlock::new` (src/control_flow_graph.rs lines 17-30): hashes the
concatenation of every instruction's bytes; `in_refs` / `out_refs` start
empty (the disassembly builder pushes edges afterwards). -/
def BasicBlock.new (offset : Nat) (instructions : List Instruction) : BasicBlock :=
  { offset := offset
    instructions := instructions
    in_refs := []
    out_refs := []
    hash := String.join (instructions.map (fun i => i.bytes)) }

/-- Model of `ControlFlowGraph` (src/control_flow_graph.rs).  `hash` is the
list of block hashes (the hasher consumes each block hash as a fixed-width
chunk, so the list is a faithful model of the hash input). -/
structure ControlFlowGraph where
  name : String
  offset : Nat
  blocks : List BasicBlock
  hash : List String
deriving DecidableEq, Repr

instance : Inhabited ControlFlowGraph := ⟨⟨"", 0, [], []⟩⟩

/-- `ControlFlowGraph::new` (src/control_flow_graph.rs lines 75-86): hashes
the sequence of block hashes. -/
def ControlFlowGraph.new (name : String) (offset : Nat) (blocks : List BasicBlock) :
    ControlFlowGraph :=
  { name := name
    offset := offset
    blocks := blocks
    hash := blocks.map (fun b => b.hash) }

/-- Model of `Disassembly` (src/disassembly.rs): name, provenance path and
the offset-sorted list of control flow graphs. -/
structure Disassembly where
  name : String
  path : String
  graphs : List ControlFlowGraph
deriving DecidableEq, Repr

/-- Model of `std::time::Duration` as serialised by serde (`secs`/`nanos`). -/
structure Duration where
  secs : Nat
  nanos : Nat
deriving DecidableEq, Repr

/-- Model of `Method` (`MethodMatch`, src/match.rs). -/
structure Method where
  old_name : String
  resolved_name : String
  malware_offset : Nat
  clean_offset : Nat
  similarity : Option ℚ
deriving DecidableEq, Repr

/-- `Method::new` (src/match.rs lines 24-36): sample graph supplies
`old_name`/`malware_offset`, reference graph supplies
`resolved_name`/`clean_offset`. -/
def Method.new (malware_graph clean_graph : ControlFlowGraph) (similarity : Option ℚ) :
    Method :=
  { old_name := malware_graph.name
    resolved_name := clean_graph.name
    malware_offset := malware_graph.offset
    clean_offset := clean_graph.offset
    similarity := similarity }

/-- Model of `Binary` (`BinaryMatch`, src/match.rs). -/
structure Binary where
  similarity : Option ℚ
  source : String
  dest : String
  «matches» : List Method
deriving DecidableEq, Repr

/-- Sum of the similarities of a list of matches under f32 semantics: any NaN
(`none`) term makes the whole sum NaN. -/
def sum_sims : List Method → Option ℚ
  | [] => some 0
  | m :: rest =>
    match m.similarity, sum_sims rest with
    | some a, some b => some (a + b)
    | _, _ => none

/-- `Binary::new` (src/match.rs lines 85-92): similarity is the mean of the
member similarities; an empty list divides `0.0` by `0.0` and yields NaN. -/
def Binary.new (source dest : String) (ms : List Method) : Binary :=
  { similarity :=
      if ms.length = 0 then none
      else
        match sum_sims ms with
        | none => none
        | some s => some (s / (ms.length : ℚ))
    source := source
    dest := dest
    «matches» := ms }

/-- Model of `CompareReport` (src/compare_report.rs). -/
structure CompareReport where
  sample_name : String
  «matches» : List Binary
  compute_time : Duration
deriving DecidableEq, Repr

/-! ## Instruction streaming and the similarity kernel (src/grapher.rs) -/

/-- Model of `InstructionStreamer` (src/grapher.rs lines 27-80): the bytes of
every instruction of every listed block, in block order then instruction
order.  The Rust streamer indexes `blocks[*i]` directly; the verified claims
only use in-range indices, for which `getD` agrees with it. -/
def stream_bytes (blocks : List BasicBlock) (indices : List Nat) : List String :=
  (indices.map (fun i => (blocks.getD i default).instructions.map (fun ins => ins.bytes))).flatten

/-- Model of `Iterator::position` on the `other` vector: index of the first
element equal to `b`. -/
def position (b : String) : List String → Option Nat
  | [] => none
  | s :: rest =>
    match s == b with
    | true => some 0
    | false => (position b rest).map (fun i => i + 1)

/-- Model of `Vec::swap_remove`: replace the element at `i` with the last
element, then drop the last element. -/
def swap_remove (l : List String) (i : Nat) : List String :=
  (l.set i (l.getLastD "")).dropLast

/-- The sweep loop of `Grapher::compare_instructions` (src/grapher.rs lines
209-215): returns `(intersection, union_before_leftover, leftover_other)`. -/
def sweep : List String → List String → Nat × Nat × List String
  | [], other => (0, 0, other)
  | b :: rest, other =>
    match position b other with
    | some i =>
      ((sweep rest (swap_remove other i)).1 + 1,
       (sweep rest (swap_remove other i)).2.1 + 1,
       (sweep rest (swap_remove other i)).2.2)
    | none =>
      ((sweep rest other).1, (sweep rest other).2.1 + 1, (sweep rest other).2.2)

/-- The tail of `Grapher::compare_instructions` after the longer/shorter
swap: `union` is the sweep's count plus the leftover size of `other`, and a
zero union returns `1.0`. -/
def jaccard_of (x y : List String) : ℚ :=
  if (sweep x y).2.1 + (sweep x y).2.2.length = 0 then 1
  else ((sweep x y).1 : ℚ) / (((sweep x y).2.1 + (sweep x y).2.2.length : Nat) : ℚ)

/-- `Grapher::compare_instructions` (src/grapher.rs lines 199-223) on the
byte streams of the two streamers: sweep the longer stream against a mutable
bag of the shorter, then add the bag's remainder to the union. -/
def compare_instructions (lhs_ins rhs_ins : List String) : ℚ :=
  if rhs_ins.length < lhs_ins.length then jaccard_of lhs_ins rhs_ins
  else jaccard_of rhs_ins lhs_ins

/-- `Grapher::compare_blocks` (src/grapher.rs lines 226-256): the source's
`local_sim` / `prev_sim` / `next_sim` bindings are inlined. -/
def compare_blocks (l_blocks : List BasicBlock) (l_index : Nat)
    (r_blocks : List BasicBlock) (r_index : Nat) : ℚ :=
  ((if (l_blocks.getD l_index default).hash = (r_blocks.getD r_index default).hash then (1 : ℚ)
    else compare_instructions (stream_bytes l_blocks [l_index])
      (stream_bytes r_blocks [r_index])) * 2
   + compare_instructions (stream_bytes l_blocks (l_blocks.getD l_index default).in_refs)
       (stream_bytes r_blocks (r_blocks.getD r_index default).in_refs)
   + compare_instructions (stream_bytes l_blocks (l_blocks.getD l_index default).out_refs)
       (stream_bytes r_blocks (r_blocks.getD r_index default).out_refs)) / 4

/-- Descending sort, modelling `sort_unstable_by(|x, y| x.total_cmp(y).reverse())`.
On rationals the comparator is a total order whose ties are equal values, so
any correct sort produces the same list; insertion sort is used for its
library lemmas. -/
def sortDesc (l : List ℚ) : List ℚ :=
  l.insertionSort (fun a b => b ≤ a)

/-- The per-source-block maxima loop of `Grapher::compare_graphs`
(src/grapher.rs lines 268-278). -/
def top_sims_of (l_blocks r_blocks : List BasicBlock) : List ℚ :=
  (List.range l_blocks.length).map (fun l_index =>
    (List.range r_blocks.length).foldl
      (fun current_sim r_index =>
        let similarity := compare_blocks l_blocks l_index r_blocks r_index
        if current_sim < similarity then similarity else current_sim)
      0)

/-- `Grapher::compare_graphs` (src/grapher.rs lines 259-283).  A zero sample
size divides the empty sum `0.0` by `0.0`, producing NaN (`none`). -/
def compare_graphs (source_graph target_graph : ControlFlowGraph) : Option ℚ :=
  if source_graph.hash = target_graph.hash then some 1
  else if min source_graph.blocks.length target_graph.blocks.length = 0 then none
  else some
    (((sortDesc (top_sims_of source_graph.blocks target_graph.blocks)).take
        (min source_graph.blocks.length target_graph.blocks.length)).sum
      / ((min source_graph.blocks.length target_graph.blocks.length : Nat) : ℚ))

/-- f32 `<` against a finite threshold: false when the left side is NaN. -/
def f32Lt (s : Option ℚ) (t : ℚ) : Bool :=
  match s with
  | none => false
  | some q => decide (q < t)

/-- f32 `>= 1.0`: false when the value is NaN. -/
def f32Ge1 (s : Option ℚ) : Bool :=
  match s with
  | none => false
  | some q => decide (1 ≤ q)

/-- f32 `>` between two similarity values: false when either side is NaN. -/
def f32Gt (s t : Option ℚ) : Bool :=
  match s, t with
  | some a, some b => decide (b < a)
  | _, _ => false

/-- `Grapher::compare_against_graphs` (src/grapher.rs lines 286-320): iterate
the sample graphs in stored order keeping the best match at or above the
threshold, stopping early on a similarity `>= 1.0`.  The accumulator is the
`current_top` variable. -/
def compare_against_graphs (threshold : ℚ) (reference_graph : ControlFlowGraph) :
    List ControlFlowGraph → Option Method → Option Method
  | [], current_top => current_top
  | sample_graph :: rest, current_top =>
    let similarity := compare_graphs reference_graph sample_graph
    if f32Lt similarity threshold then
      compare_against_graphs threshold reference_graph rest current_top
    else
      let current_match := Method.new sample_graph reference_graph similarity
      if f32Ge1 similarity then some current_match
      else
        match current_top with
        | some top =>
          if f32Gt similarity top.similarity then
            compare_against_graphs threshold reference_graph rest (some current_match)
          else
            compare_against_graphs threshold reference_graph rest current_top
        | none => compare_against_graphs threshold reference_graph rest (some current_match)

/-- `Grapher::compare_graph_sets` (src/grapher.rs lines 323-363): run the
matcher for every reference graph and keep the hits. -/
def compare_graph_sets (threshold : ℚ) (sample_graphs reference_graphs : Disassembly) :
    Binary :=
  Binary.new sample_graphs.name reference_graphs.name
    (reference_graphs.graphs.filterMap
      (fun reference_graph =>
        compare_against_graphs threshold reference_graph sample_graphs.graphs none))

/-- `Grapher::compare` (src/grapher.rs lines 112-138).  The wall-clock
`compute_time` is not computable in the model and is passed in; the parallel
push order is modelled by the input order of `reference_graphs`. -/
def Grapher.compare (threshold : ℚ) (compute_elapsed : Duration)
    (sample_graph : Disassembly) (reference_graphs : List Disassembly) : CompareReport :=
  { sample_name := sample_graph.name
    «matches» := reference_graphs.map (fun graph => compare_graph_sets threshold sample_graph graph)
    compute_time := compute_elapsed }

/-! ## Disassembly subsetting (src/disassembly.rs) -/

/-- Rust `f32::clamp(0.0, 1.0)` on a finite ratio. -/
def clampRatio (r : ℚ) : ℚ := min (max r 0) 1

/-- The `n_args` count of `Disassembly::to_subset` (src/disassembly.rs line
164): `(graphs.len() as f32 * ratio.clamp(0.0, 1.0)) as usize`, i.e. the
floor of the product (the product is non-negative, so the `as usize`
truncation is the floor). -/
def n_args (d : Disassembly) (ratio : ℚ) : Nat :=
  (⌊(d.graphs.length : ℚ) * clampRatio ratio⌋).toNat

/-- `Disassembly::to_subset` (src/disassembly.rs lines 163-175).  The random
index vector drawn by `rand::seq::index::sample` is passed in as
`subset_indices`; the `sample` contract (exactly `n_args` distinct indices
below `graphs.len()`) appears as a hypothesis of the theorems using this
definition. -/
def to_subset (d : Disassembly) (subset_indices : List Nat) : Disassembly :=
  { name := d.name
    path := d.path
    graphs := subset_indices.map (fun index => d.graphs.getD index default) }

/-! ## Helper lemmas: the sweep loop computes the multiset intersection -/

theorem getLastD_eq_getLast {l : List String} (h : l ≠ []) (d : String) :
    l.getLastD d = l.getLast h := by
  rw [List.getLastD_eq_getLast?, List.getLast?_eq_getLast l h, Option.getD_some]

theorem getD_mem_of_lt {l : List String} {i : Nat} (h : i < l.length) : l.getD i "" ∈ l := by
  rw [List.getD_eq_getElem?_getD, List.getElem?_eq_getElem h, Option.getD_some]
  exact List.getElem_mem h

theorem swap_remove_perm : ∀ (l : List String) (i : Nat), i < l.length →
    (swap_remove l i).Perm (l.eraseIdx i)
  | [], _, h => by simp at h
  | x :: xs, 0, _ => by
    cases xs with
    | nil => simp [swap_remove]
    | cons y ys =>
      have hne : (y :: ys : List String) ≠ [] := by simp
      unfold swap_remove
      rw [List.getLastD_cons, List.set_cons_zero, getLastD_eq_getLast hne,
        List.dropLast_cons_of_ne_nil hne, List.eraseIdx_cons_zero]
      refine (List.perm_append_singleton _ _).symm.trans ?_
      rw [List.dropLast_concat_getLast hne]
  | x :: xs, i + 1, h => by
    have hlt : i < xs.length := by
      have := h
      simp only [List.length_cons] at this
      omega
    have hne : xs ≠ [] := by
      cases xs
      · simp at hlt
      · simp
    have hne2 : xs.set i (xs.getLast hne) ≠ [] := by
      cases xs
      · simp at hlt
      · cases i <;> simp
    unfold swap_remove
    rw [List.getLastD_cons, getLastD_eq_getLast hne, List.set_cons_succ,
      List.dropLast_cons_of_ne_nil hne2, List.eraseIdx_cons_succ]
    have ih := swap_remove_perm xs i hlt
    unfold swap_remove at ih
    rw [getLastD_eq_getLast hne] at ih
    exact ih.cons x

theorem eraseIdx_coe : ∀ (l : List String) (i : Nat), i < l.length →
    ((l.eraseIdx i : List String) : Multiset String)
      = (↑l : Multiset String).erase (l.getD i "")
  | [], _, h => by simp at h
  | x :: xs, 0, _ => by
    simp [← Multiset.cons_coe]
  | x :: xs, i + 1, h => by
    have hlt : i < xs.length := by
      simp only [List.length_cons] at h
      omega
    have hv : (x :: xs).getD (i + 1) "" = xs.getD i "" := by simp
    rw [List.eraseIdx_cons_succ, hv, ← Multiset.cons_coe, ← Multiset.cons_coe]
    by_cases hd : xs.getD i "" = x
    · have hmem : x ∈ (↑xs : Multiset String) := by
        rw [Multiset.mem_coe, ← hd]
        exact getD_mem_of_lt hlt
      rw [hd, Multiset.erase_cons_head, eraseIdx_coe xs i hlt, hd, Multiset.cons_erase hmem]
    · rw [Multiset.erase_cons_tail _ (fun e => hd e.symm), eraseIdx_coe xs i hlt]

theorem swap_remove_coe {l : List String} {i : Nat} (h : i < l.length) :
    ((swap_remove l i : List String) : Multiset String)
      = (↑l : Multiset String).erase (l.getD i "") := by
  have hp : ((swap_remove l i : List String) : Multiset String) = ↑(l.eraseIdx i) :=
    Multiset.coe_eq_coe.mpr (swap_remove_perm l i h)
  rw [hp, eraseIdx_coe l i h]

theorem position_some : ∀ {l : List String} {b : String} {i : Nat},
    position b l = some i → i < l.length ∧ l.getD i "" = b
  | [], b, i, h => by simp [position] at h
  | s :: rest, b, i, h => by
    rw [position] at h
    cases hsb : (s == b) with
    | true =>
      rw [hsb] at h
      simp only [Option.some.injEq] at h
      subst h
      exact ⟨by simp, by simpa using eq_of_beq hsb⟩
    | false =>
      rw [hsb] at h
      simp only [Option.map_eq_some'] at h
      obtain ⟨j, hj, hij⟩ := h
      obtain ⟨hlt, hval⟩ := position_some hj
      subst hij
      exact ⟨by simpa using Nat.succ_lt_succ hlt, by simpa using hval⟩

theorem position_none : ∀ {l : List String} {b : String},
    position b l = none → b ∉ l
  | [], b, _ => by simp
  | s :: rest, b, h => by
    rw [position] at h
    cases hsb : (s == b) with
    | true => rw [hsb] at h; simp at h
    | false =>
      rw [hsb] at h
      simp only [Option.map_eq_none'] at h
      have hrest := position_none h
      have hne : b ≠ s := fun e => by
        rw [e] at hsb
        simp at hsb
      simp [List.mem_cons, hne, hrest]

theorem sweep_spec : ∀ (xs other : List String),
    (sweep xs other).1 = Multiset.card ((↑xs : Multiset String) ∩ ↑other) ∧
    (sweep xs other).2.1 = xs.length ∧
    ((sweep xs other).2.2 : Multiset String) = (↑other : Multiset String) - ↑xs
  | [], other => by
    refine ⟨?_, rfl, ?_⟩ <;> simp [sweep]
  | b :: rest, other => by
    cases hp : position b other with
    | some i =>
      obtain ⟨hlt, hval⟩ := position_some hp
      have hmem : b ∈ (↑other : Multiset String) := by
        rw [Multiset.mem_coe, ← hval]
        exact getD_mem_of_lt hlt
      have hsw : ((swap_remove other i : List String) : Multiset String)
          = (↑other : Multiset String).erase b := by rw [swap_remove_coe hlt, hval]
      obtain ⟨ih1, ih2, ih3⟩ := sweep_spec rest (swap_remove other i)
      refine ⟨?_, ?_, ?_⟩
      · show (sweep (b :: rest) other).1 = _
        rw [sweep, hp]
        simp only []
        rw [ih1, hsw, ← Multiset.cons_coe, Multiset.cons_inter_of_pos _ hmem,
          Multiset.card_cons]
      · show (sweep (b :: rest) other).2.1 = _
        rw [sweep, hp]
        simp only []
        rw [ih2, List.length_cons]
      · show ((sweep (b :: rest) other).2.2 : Multiset String) = _
        rw [sweep, hp]
        simp only []
        rw [ih3, hsw, ← Multiset.cons_coe, Multiset.sub_cons]
    | none =>
      have hnm : b ∉ (↑other : Multiset String) := by
        rw [Multiset.mem_coe]
        exact position_none hp
      obtain ⟨ih1, ih2, ih3⟩ := sweep_spec rest other
      refine ⟨?_, ?_, ?_⟩
      · show (sweep (b :: rest) other).1 = _
        rw [sweep, hp]
        simp only []
        rw [ih1, ← Multiset.cons_coe, Multiset.cons_inter_of_neg _ hnm]
      · show (sweep (b :: rest) other).2.1 = _
        rw [sweep, hp]
        simp only []
        rw [ih2, List.length_cons]
      · show ((sweep (b :: rest) other).2.2 : Multiset String) = _
        rw [sweep, hp]
        simp only []
        rw [ih3, ← Multiset.cons_coe, Multiset.sub_cons, Multiset.erase_of_not_mem hnm]

/-- Bag-Jaccard with multiplicity over byte strings, written with multiset
intersection (minimum multiplicity) and union (maximum multiplicity); this
is the specification-side notion for claim C3. -/
def bag_jaccard (xs ys : List String) : ℚ :=
  if Multiset.card ((↑xs : Multiset String) ∪ ↑ys) = 0 then 1
  else (Multiset.card ((↑xs : Multiset String) ∩ ↑ys) : ℚ) /
    (Multiset.card ((↑xs : Multiset String) ∪ ↑ys) : ℚ)

theorem sweep_union_card (x o : List String) :
    (sweep x o).2.1 + (sweep x o).2.2.length
      = Multiset.card ((↑x : Multiset String) ∪ ↑o) := by
  obtain ⟨h1, h2, h3⟩ := sweep_spec x o
  have hsub : Multiset.card ((↑o : Multiset String) - (↑x : Multiset String))
      + Multiset.card ((↑o : Multiset String) ∩ (↑x : Multiset String))
      = Multiset.card (↑o : Multiset String) := by
    rw [← Multiset.card_add, Multiset.sub_add_inter]
  have huni : Multiset.card ((↑x : Multiset String) ∪ (↑o : Multiset String))
      + Multiset.card ((↑x : Multiset String) ∩ (↑o : Multiset String))
      = Multiset.card (↑x : Multiset String) + Multiset.card (↑o : Multiset String) := by
    rw [← Multiset.card_add, ← Multiset.card_add, Multiset.union_add_inter]
  have hlen : (sweep x o).2.2.length
      = Multiset.card ((↑o : Multiset String) - (↑x : Multiset String)) := by
    rw [← Multiset.coe_card, h3]
  have hcomm : Multiset.card ((↑o : Multiset String) ∩ (↑x : Multiset String))
      = Multiset.card ((↑x : Multiset String) ∩ (↑o : Multiset String)) := by
    rw [Multiset.inter_comm]
  have hx : x.length = Multiset.card (↑x : Multiset String) := (Multiset.coe_card x).symm
  rw [h2, hlen]
  omega

theorem jaccard_of_eq_bag (x o : List String) : jaccard_of x o = bag_jaccard x o := by
  obtain ⟨h1, _, _⟩ := sweep_spec x o
  unfold jaccard_of bag_jaccard
  rw [sweep_union_card x o, h1]

theorem bag_jaccard_comm (xs ys : List String) : bag_jaccard xs ys = bag_jaccard ys xs := by
  unfold bag_jaccard
  rw [Multiset.inter_comm, Multiset.union_comm]

theorem compare_instructions_eq_bag (xs ys : List String) :
    compare_instructions xs ys = bag_jaccard xs ys := by
  unfold compare_instructions
  by_cases hlen : ys.length < xs.length
  · rw [if_pos hlen, jaccard_of_eq_bag]
  · rw [if_neg hlen, jaccard_of_eq_bag, bag_jaccard_comm]

theorem compare_instructions_comm (xs ys : List String) :
    compare_instructions xs ys = compare_instructions ys xs := by
  rw [compare_instructions_eq_bag, compare_instructions_eq_bag, bag_jaccard_comm]

/-! ## Range lemmas -/

theorem bag_jaccard_nonneg (xs ys : List String) : 0 ≤ bag_jaccard xs ys := by
  unfold bag_jaccard
  split
  · exact zero_le_one
  · exact div_nonneg (Nat.cast_nonneg _) (Nat.cast_nonneg _)

theorem bag_jaccard_le_one (xs ys : List String) : bag_jaccard xs ys ≤ 1 := by
  unfold bag_jaccard
  split
  · exact le_refl 1
  · rename_i hu
    refine (div_le_one ?_).mpr ?_
    · exact_mod_cast Nat.pos_of_ne_zero hu
    · exact_mod_cast Multiset.card_le_card
        ((Multiset.inter_le_left _ _).trans (Multiset.le_union_left _ _))

theorem compare_instructions_nonneg (xs ys : List String) :
    0 ≤ compare_instructions xs ys := by
  rw [compare_instructions_eq_bag]
  exact bag_jaccard_nonneg xs ys

theorem compare_instructions_le_one (xs ys : List String) :
    compare_instructions xs ys ≤ 1 := by
  rw [compare_instructions_eq_bag]
  exact bag_jaccard_le_one xs ys

theorem compare_blocks_nonneg (lB : List BasicBlock) (li : Nat)
    (rB : List BasicBlock) (ri : Nat) : 0 ≤ compare_blocks lB li rB ri := by
  unfold compare_blocks
  have h1 : (0 : ℚ) ≤ (if (lB.getD li default).hash = (rB.getD ri default).hash then (1 : ℚ)
      else compare_instructions (stream_bytes lB [li]) (stream_bytes rB [ri])) := by
    split
    · exact zero_le_one
    · exact compare_instructions_nonneg _ _
  have h2 := compare_instructions_nonneg (stream_bytes lB (lB.getD li default).in_refs)
    (stream_bytes rB (rB.getD ri default).in_refs)
  have h3 := compare_instructions_nonneg (stream_bytes lB (lB.getD li default).out_refs)
    (stream_bytes rB (rB.getD ri default).out_refs)
  linarith

theorem compare_blocks_le_one (lB : List BasicBlock) (li : Nat)
    (rB : List BasicBlock) (ri : Nat) : compare_blocks lB li rB ri ≤ 1 := by
  unfold compare_blocks
  have h1 : (if (lB.getD li default).hash = (rB.getD ri default).hash then (1 : ℚ)
      else compare_instructions (stream_bytes lB [li]) (stream_bytes rB [ri])) ≤ 1 := by
    split
    · exact le_refl 1
    · exact compare_instructions_le_one _ _
  have h2 := compare_instructions_le_one (stream_bytes lB (lB.getD li default).in_refs)
    (stream_bytes rB (rB.getD ri default).in_refs)
  have h3 := compare_instructions_le_one (stream_bytes lB (lB.getD li default).out_refs)
    (stream_bytes rB (rB.getD ri default).out_refs)
  linarith

theorem foldl_preserve {α β : Type} (P : α → Prop) (f : α → β → α) :
    ∀ (l : List β) (a : α), P a → (∀ x y, P x → P (f x y)) → P (l.foldl f a)
  | [], _, ha, _ => ha
  | b :: l, a, ha, hf => foldl_preserve P f l (f a b) (hf a b ha) hf

theorem top_sims_of_bounds (lB rB : List BasicBlock) :
    ∀ q ∈ top_sims_of lB rB, 0 ≤ q ∧ q ≤ 1 := by
  intro q hq
  unfold top_sims_of at hq
  simp only [List.mem_map] at hq
  obtain ⟨li, -, rfl⟩ := hq
  refine foldl_preserve (fun a => 0 ≤ a ∧ a ≤ 1) _ _ 0 ⟨le_refl 0, zero_le_one⟩ ?_
  intro x ri hx
  dsimp only
  split
  · exact ⟨compare_blocks_nonneg lB li rB ri, compare_blocks_le_one lB li rB ri⟩
  · exact hx

theorem list_sum_nonneg : ∀ (l : List ℚ), (∀ x ∈ l, 0 ≤ x) → 0 ≤ l.sum
  | [], _ => le_refl 0
  | x :: l, h => by
    rw [List.sum_cons]
    have hx := h x (List.mem_cons_self x l)
    have hl := list_sum_nonneg l (fun y hy => h y (List.mem_cons_of_mem x hy))
    linarith

theorem list_sum_le_length : ∀ (l : List ℚ), (∀ x ∈ l, x ≤ 1) → l.sum ≤ (l.length : ℚ)
  | [], _ => by simp
  | x :: l, h => by
    rw [List.sum_cons, List.length_cons]
    have hx := h x (List.mem_cons_self x l)
    have hl := list_sum_le_length l (fun y hy => h y (List.mem_cons_of_mem x hy))
    push_cast
    linarith

theorem sortDesc_mem {l : List ℚ} {q : ℚ} (h : q ∈ sortDesc l) : q ∈ l :=
  (List.perm_insertionSort (fun a b => b ≤ a) l).mem_iff.mp h

theorem compare_graphs_self (g : ControlFlowGraph) : compare_graphs g g = some 1 := by
  unfold compare_graphs
  rw [if_pos rfl]

theorem compare_graphs_bounds {s t : ControlFlowGraph} {q : ℚ}
    (h : compare_graphs s t = some q) : 0 ≤ q ∧ q ≤ 1 := by
  unfold compare_graphs at h
  by_cases hh : s.hash = t.hash
  · rw [if_pos hh] at h
    have hq : q = 1 := by
      injection h with h
      exact h.symm
    rw [hq]
    exact ⟨zero_le_one, le_refl 1⟩
  · rw [if_neg hh] at h
    by_cases hk : min s.blocks.length t.blocks.length = 0
    · rw [if_pos hk] at h
      exact absurd h (by simp)
    · rw [if_neg hk] at h
      have hq : q = ((sortDesc (top_sims_of s.blocks t.blocks)).take
            (min s.blocks.length t.blocks.length)).sum
          / ((min s.blocks.length t.blocks.length : Nat) : ℚ) := by
        injection h with h
        exact h.symm
      have hbounds : ∀ x ∈ (sortDesc (top_sims_of s.blocks t.blocks)).take
          (min s.blocks.length t.blocks.length), 0 ≤ x ∧ x ≤ 1 := by
        intro x hx
        exact top_sims_of_bounds s.blocks t.blocks x (sortDesc_mem (List.take_subset _ _ hx))
      have hpos : (0 : ℚ) < ((min s.blocks.length t.blocks.length : Nat) : ℚ) := by
        exact_mod_cast Nat.pos_of_ne_zero hk
      have hsum0 : 0 ≤ ((sortDesc (top_sims_of s.blocks t.blocks)).take
          (min s.blocks.length t.blocks.length)).sum :=
        list_sum_nonneg _ (fun x hx => (hbounds x hx).1)
      have hsum1 : ((sortDesc (top_sims_of s.blocks t.blocks)).take
            (min s.blocks.length t.blocks.length)).sum
          ≤ ((min s.blocks.length t.blocks.length : Nat) : ℚ) := by
        refine (list_sum_le_length _ (fun x hx => (hbounds x hx).2)).trans ?_
        rw [List.length_take]
        exact_mod_cast Nat.min_le_left _ _
      constructor
      · rw [hq]
        exact div_nonneg hsum0 (le_of_lt hpos)
      · rw [hq]
        exact (div_le_one hpos).mpr hsum1

theorem compare_graphs_some_of_ne_nil {s t : ControlFlowGraph}
    (hs : s.blocks ≠ []) (ht : t.blocks ≠ []) :
    ∃ q, compare_graphs s t = some q ∧ 0 ≤ q ∧ q ≤ 1 := by
  by_cases hh : s.hash = t.hash
  · refine ⟨1, ?_, zero_le_one, le_refl 1⟩
    unfold compare_graphs
    rw [if_pos hh]
  · have hk : min s.blocks.length t.blocks.length ≠ 0 := by
      have h1 : s.blocks.length ≠ 0 := fun e => hs (List.length_eq_zero.mp e)
      have h2 : t.blocks.length ≠ 0 := fun e => ht (List.length_eq_zero.mp e)
      omega
    have heq : compare_graphs s t = some
        (((sortDesc (top_sims_of s.blocks t.blocks)).take
            (min s.blocks.length t.blocks.length)).sum
          / ((min s.blocks.length t.blocks.length : Nat) : ℚ)) := by
      unfold compare_graphs
      rw [if_neg hh, if_neg hk]
    exact ⟨_, heq, compare_graphs_bounds heq⟩

/-! ## Specification-side definitions (written from the claims' wording) -/

instance : IsTotal ℚ (fun a b => b ≤ a) := ⟨fun a b => le_total b a⟩

instance : IsTrans ℚ (fun a b => b ≤ a) := ⟨fun _ _ _ h1 h2 => le_trans h2 h1⟩

/-- Spec side of C1: per-source-block maxima, written with `max` (the claim's
"maximum block-similarity against every block of the target", starting from
`0.0`). -/
def spec_top_sims (lB rB : List BasicBlock) : List ℚ :=
  (List.range lB.length).map (fun li =>
    (List.range rB.length).foldl (fun cur ri => max cur (compare_blocks lB li rB ri)) 0)

/-- Spec side of C1: the mean of the first `k` entries of a list; undefined
(NaN) when `k = 0`. -/
def spec_mean_first (l : List ℚ) (k : Nat) : Option ℚ :=
  if k = 0 then none else some ((l.take k).sum / (k : ℚ))

/-- Spec side of C1: hash short-circuit to `1.0`, otherwise the mean of the
first `min |L| |R|` entries of the descending-sorted per-source-block
maxima. -/
def spec_compare_graphs (s t : ControlFlowGraph) : Option ℚ :=
  if s.hash = t.hash then some 1
  else spec_mean_first (sortDesc (spec_top_sims s.blocks t.blocks))
    (min s.blocks.length t.blocks.length)

/-- Spec side of C2: `local_sim` is `1.0` on equal block hashes, else the
instruction-set similarity of the two single blocks. -/
def spec_local_sim (lB : List BasicBlock) (li : Nat)
    (rB : List BasicBlock) (ri : Nat) : ℚ :=
  if (lB.getD li default).hash = (rB.getD ri default).hash then 1
  else compare_instructions (stream_bytes lB [li]) (stream_bytes rB [ri])

/-- Spec side of C2: instruction-set similarity over the two blocks'
`in_refs` instruction streams. -/
def spec_prev_sim (lB : List BasicBlock) (li : Nat)
    (rB : List BasicBlock) (ri : Nat) : ℚ :=
  compare_instructions (stream_bytes lB (lB.getD li default).in_refs)
    (stream_bytes rB (rB.getD ri default).in_refs)

/-- Spec side of C2: instruction-set similarity over the two blocks'
`out_refs` instruction streams. -/
def spec_next_sim (lB : List BasicBlock) (li : Nat)
    (rB : List BasicBlock) (ri : Nat) : ℚ :=
  compare_instructions (stream_bytes lB (lB.getD li default).out_refs)
    (stream_bytes rB (rB.getD ri default).out_refs)

theorem if_lt_eq_max (a b : ℚ) : (if a < b then b else a) = max a b := by
  rcases le_or_lt b a with h | h
  · rw [if_neg (not_lt.mpr h), max_eq_left h]
  · rw [if_pos h, max_eq_right (le_of_lt h)]

theorem top_sims_eq_spec (lB rB : List BasicBlock) :
    top_sims_of lB rB = spec_top_sims lB rB := by
  unfold top_sims_of spec_top_sims
  refine List.map_congr_left ?_
  intro li _
  have hf : (fun (cur : ℚ) (ri : Nat) =>
        if cur < compare_blocks lB li rB ri then compare_blocks lB li rB ri else cur)
      = fun (cur : ℚ) (ri : Nat) => max cur (compare_blocks lB li rB ri) := by
    funext cur ri
    exact if_lt_eq_max cur (compare_blocks lB li rB ri)
  exact congrArg (fun f => List.foldl f 0 (List.range rB.length)) hf

/-! ## Claims C1, C2, C3 -/

/-- C1: graph similarity returns `1.0` on equal hashes; otherwise it is the
mean of the first `min |L| |R|` entries of the descending-sorted list of
per-source-block maxima (strict-improvement scan starting from `0.0`), as
the code's `compare_graphs` coincides with the claim-side
`spec_compare_graphs`, `sortDesc` really sorts descending, and the sorted
list is a permutation of the maxima list. -/
theorem c1_compare_graphs_refines_spec :
    (∀ s t : ControlFlowGraph, compare_graphs s t = spec_compare_graphs s t) ∧
    (∀ l : List ℚ, (sortDesc l).Pairwise (fun a b => b ≤ a) ∧ (sortDesc l).Perm l) := by
  constructor
  · intro s t
    unfold compare_graphs spec_compare_graphs spec_mean_first
    rw [← top_sims_eq_spec]
  · intro l
    exact ⟨List.sorted_insertionSort (fun a b => b ≤ a) l,
      List.perm_insertionSort (fun a b => b ≤ a) l⟩

/-- C2: block similarity is `(2·local_sim + prev_sim + next_sim) / 4`, where
`local_sim` is `1.0` on equal block hashes and otherwise the instruction-set
similarity of the two single blocks, and `prev_sim`/`next_sim` are the
instruction-set similarities over the blocks' `in_refs`/`out_refs` streams;
two empty streams compare to `1.0`. -/
theorem c2_compare_blocks_formula :
    (∀ (lB : List BasicBlock) (li : Nat) (rB : List BasicBlock) (ri : Nat),
      li < lB.length → ri < rB.length →
      compare_blocks lB li rB ri
        = (2 * spec_local_sim lB li rB ri + spec_prev_sim lB li rB ri
            + spec_next_sim lB li rB ri) / 4) ∧
    (∀ xs ys : List String, xs = [] → ys = [] → compare_instructions xs ys = 1) := by
  constructor
  · intro lB li rB ri _ _
    unfold compare_blocks spec_local_sim spec_prev_sim spec_next_sim
    ring
  · intro xs ys hx hy
    subst hx
    subst hy
    decide

/-- C3: instruction-set similarity equals bag-Jaccard with multiplicity over
the instruction byte strings (intersection over max-multiplicity union,
`1.0` when the union is empty), and it is symmetric. -/
theorem c3_compare_instructions_bag_jaccard :
    ∀ xs ys : List String,
      compare_instructions xs ys = bag_jaccard xs ys ∧
      compare_instructions xs ys = compare_instructions ys xs :=
  fun xs ys => ⟨compare_instructions_eq_bag xs ys, compare_instructions_comm xs ys⟩

/-! ## Concrete sample data used by witnesses and counterexamples -/

/-- A one-instruction basic block with byte string "aa" at offset 0. -/
def blkAA : BasicBlock := BasicBlock.new 0 [⟨"aa"⟩]

/-- A one-instruction basic block with byte string "aa" at offset 1. -/
def blkAA1 : BasicBlock := BasicBlock.new 1 [⟨"aa"⟩]

/-- A one-instruction basic block with byte string "bb" at offset 1. -/
def blkBB : BasicBlock := BasicBlock.new 1 [⟨"bb"⟩]

/-- Witness for C2 at concrete one-block lists. -/
theorem c2_compare_blocks_formula_witness :
    compare_blocks [blkAA] 0 [blkBB] 0
      = (2 * spec_local_sim [blkAA] 0 [blkBB] 0 + spec_prev_sim [blkAA] 0 [blkBB] 0
          + spec_next_sim [blkAA] 0 [blkBB] 0) / 4
    ∧ compare_instructions [] [] = 1 :=
  ⟨c2_compare_blocks_formula.1 [blkAA] 0 [blkBB] 0 (by decide) (by decide),
   c2_compare_blocks_formula.2 [] [] rfl rfl⟩

/-! ## Symmetry at the block level, and the graph-level failure (C4) -/

theorem compare_blocks_comm (lB : List BasicBlock) (li : Nat)
    (rB : List BasicBlock) (ri : Nat) :
    compare_blocks lB li rB ri = compare_blocks rB ri lB li := by
  unfold compare_blocks
  rw [compare_instructions_comm (stream_bytes lB [li]) (stream_bytes rB [ri]),
    compare_instructions_comm (stream_bytes lB (lB.getD li default).in_refs)
      (stream_bytes rB (rB.getD ri default).in_refs),
    compare_instructions_comm (stream_bytes lB (lB.getD li default).out_refs)
      (stream_bytes rB (rB.getD ri default).out_refs)]
  by_cases h : (lB.getD li default).hash = (rB.getD ri default).hash
  · rw [if_pos h, if_pos h.symm]
  · rw [if_neg h, if_neg (fun e => h e.symm)]

theorem top_sims_of_single (a b : BasicBlock) :
    top_sims_of [a] [b]
      = [if 0 < compare_blocks [a] 0 [b] 0 then compare_blocks [a] 0 [b] 0 else 0] :=
  rfl

theorem if_zero_lt_of_nonneg {c : ℚ} (h : 0 ≤ c) : (if 0 < c then c else 0) = c := by
  rcases lt_or_eq_of_le h with h1 | h1
  · rw [if_pos h1]
  · rw [if_neg (by rw [← h1]; exact lt_irrefl 0), ← h1]

theorem compare_graphs_single {s t : ControlFlowGraph} {a b : BasicBlock}
    (hsa : s.blocks = [a]) (htb : t.blocks = [b]) (hh : s.hash ≠ t.hash) :
    compare_graphs s t = some (compare_blocks [a] 0 [b] 0) := by
  unfold compare_graphs
  rw [if_neg hh, hsa, htb, top_sims_of_single,
    if_zero_lt_of_nonneg (compare_blocks_nonneg [a] 0 [b] 0)]
  norm_num [sortDesc]

theorem compare_graphs_comm_of_hash_eq {s t : ControlFlowGraph} (hh : s.hash = t.hash) :
    compare_graphs s t = compare_graphs t s := by
  unfold compare_graphs
  rw [if_pos hh, if_pos hh.symm]

theorem compare_graphs_comm_single {s t : ControlFlowGraph}
    (hs : s.blocks.length = 1) (ht : t.blocks.length = 1) :
    compare_graphs s t = compare_graphs t s := by
  obtain ⟨a, hsa⟩ := List.length_eq_one.mp hs
  obtain ⟨b, htb⟩ := List.length_eq_one.mp ht
  by_cases hh : s.hash = t.hash
  · exact compare_graphs_comm_of_hash_eq hh
  · rw [compare_graphs_single hsa htb hh, compare_graphs_single htb hsa (fun e => hh e.symm),
      compare_blocks_comm]

/-- Counterexample data: blocks with instruction bytes "aa", "aa". -/
def cexBlocksA : List BasicBlock := [BasicBlock.new 0 [⟨"aa"⟩], BasicBlock.new 1 [⟨"aa"⟩]]

/-- Counterexample data: blocks with instruction bytes "aa", "bb". -/
def cexBlocksB : List BasicBlock := [BasicBlock.new 0 [⟨"aa"⟩], BasicBlock.new 1 [⟨"bb"⟩]]

/-- Two-block graph with instruction bytes "aa", "aa" (counterexample data). -/
def cexGraphA : ControlFlowGraph := ControlFlowGraph.new "f" 0 cexBlocksA

/-- Two-block graph with instruction bytes "aa", "bb" (counterexample data). -/
def cexGraphB : ControlFlowGraph := ControlFlowGraph.new "g" 0 cexBlocksB

theorem cexAB00 : compare_blocks cexBlocksA 0 cexBlocksB 0 = 1 := by
  simp [compare_blocks, cexBlocksA, cexBlocksB, BasicBlock.new, stream_bytes,
    compare_instructions, jaccard_of, sweep, position, swap_remove, String.join]
  norm_num

theorem cexAB01 : compare_blocks cexBlocksA 0 cexBlocksB 1 = 1 / 2 := by
  simp [compare_blocks, cexBlocksA, cexBlocksB, BasicBlock.new, stream_bytes,
    compare_instructions, jaccard_of, sweep, position, swap_remove, String.join]
  norm_num

theorem cexAB10 : compare_blocks cexBlocksA 1 cexBlocksB 0 = 1 := by
  simp [compare_blocks, cexBlocksA, cexBlocksB, BasicBlock.new, stream_bytes,
    compare_instructions, jaccard_of, sweep, position, swap_remove, String.join]
  norm_num

theorem cexAB11 : compare_blocks cexBlocksA 1 cexBlocksB 1 = 1 / 2 := by
  simp [compare_blocks, cexBlocksA, cexBlocksB, BasicBlock.new, stream_bytes,
    compare_instructions, jaccard_of, sweep, position, swap_remove, String.join]
  norm_num

theorem cexAB_top : top_sims_of cexBlocksA cexBlocksB = [1, 1] := by
  unfold top_sims_of
  rw [show cexBlocksA.length = 2 from rfl, show cexBlocksB.length = 2 from rfl,
    show List.range 2 = [0, 1] from rfl]
  simp only [List.map_cons, List.map_nil, List.foldl_cons, List.foldl_nil]
  rw [cexAB00, cexAB01, cexAB10, cexAB11]
  norm_num

theorem cexBA_top : top_sims_of cexBlocksB cexBlocksA = [1, 1 / 2] := by
  unfold top_sims_of
  rw [show cexBlocksA.length = 2 from rfl, show cexBlocksB.length = 2 from rfl,
    show List.range 2 = [0, 1] from rfl]
  simp only [List.map_cons, List.map_nil, List.foldl_cons, List.foldl_nil]
  rw [compare_blocks_comm cexBlocksB 0 cexBlocksA 0, compare_blocks_comm cexBlocksB 0 cexBlocksA 1,
    compare_blocks_comm cexBlocksB 1 cexBlocksA 0, compare_blocks_comm cexBlocksB 1 cexBlocksA 1,
    cexAB00, cexAB10, cexAB01, cexAB11]
  norm_num

theorem cex_hash_ne : cexGraphA.hash ≠ cexGraphB.hash := by decide

theorem cexAB_value : compare_graphs cexGraphA cexGraphB = some 1 := by
  unfold compare_graphs
  rw [if_neg cex_hash_ne,
    show cexGraphA.blocks = cexBlocksA from rfl, show cexGraphB.blocks = cexBlocksB from rfl,
    cexAB_top, show cexBlocksA.length = 2 from rfl, show cexBlocksB.length = 2 from rfl]
  norm_num [sortDesc, List.insertionSort, List.orderedInsert]

theorem cexBA_value : compare_graphs cexGraphB cexGraphA = some (3 / 4) := by
  unfold compare_graphs
  rw [if_neg (fun e => cex_hash_ne e.symm),
    show cexGraphA.blocks = cexBlocksA from rfl, show cexGraphB.blocks = cexBlocksB from rfl,
    cexBA_top, show cexBlocksA.length = 2 from rfl, show cexBlocksB.length = 2 from rfl]
  norm_num [sortDesc, List.insertionSort, List.orderedInsert]

/-- C4 counterexample: graph similarity is not symmetric.  For the two-block
graphs with instruction bytes ("aa","aa") and ("aa","bb"), comparing left to
right gives `1.0` (both source blocks match the "aa" target block perfectly)
while comparing right to left gives `0.75`. -/
theorem c4_symmetry_counterexample :
    compare_graphs cexGraphA cexGraphB = some 1 ∧
    compare_graphs cexGraphB cexGraphA = some (3 / 4) ∧
    compare_graphs cexGraphA cexGraphB ≠ compare_graphs cexGraphB cexGraphA :=
  ⟨cexAB_value, cexBA_value, by rw [cexAB_value, cexBA_value]; norm_num⟩

/-- C4 amended: the similarity kernel is symmetric at the block level
(`compare_blocks` and, inside it, `compare_instructions`), and graph
similarity is symmetric when the two graphs have equal hashes or when both
graphs have exactly one block; it is not symmetric for general graphs. -/
theorem c4_symmetry_amended :
    (∀ (lB : List BasicBlock) (li : Nat) (rB : List BasicBlock) (ri : Nat),
      compare_blocks lB li rB ri = compare_blocks rB ri lB li) ∧
    (∀ s t : ControlFlowGraph, s.hash = t.hash → compare_graphs s t = compare_graphs t s) ∧
    (∀ s t : ControlFlowGraph, s.blocks.length = 1 → t.blocks.length = 1 →
      compare_graphs s t = compare_graphs t s) :=
  ⟨compare_blocks_comm,
   fun _ _ hh => compare_graphs_comm_of_hash_eq hh,
   fun _ _ hs ht => compare_graphs_comm_single hs ht⟩

/-- Single-block graph named "s" at offset 0 with bytes "aa". -/
def graphS : ControlFlowGraph := ControlFlowGraph.new "s" 0 [blkAA]

/-- Single-block graph named "t" at offset 5 with bytes "bb". -/
def graphT : ControlFlowGraph := ControlFlowGraph.new "t" 5 [blkBB]

/-- Witness for the amended C4 at concrete single-block graphs. -/
theorem c4_symmetry_amended_witness :
    compare_graphs graphS graphT = compare_graphs graphT graphS :=
  c4_symmetry_amended.2.2 graphS graphT (by decide) (by decide)

/-! ## C5: the threshold is honoured -/

theorem compare_against_graphs_threshold (threshold : ℚ) (ref : ControlFlowGraph) :
    ∀ (gs : List ControlFlowGraph) (top : Option Method),
      (∀ t, top = some t → f32Lt t.similarity threshold = false) →
      ∀ m, compare_against_graphs threshold ref gs top = some m →
      f32Lt m.similarity threshold = false
  | [], top, htop, m, hm => htop m hm
  | g :: rest, top, htop, m, hm => by
    simp only [compare_against_graphs] at hm
    split at hm
    · exact compare_against_graphs_threshold threshold ref rest top htop m hm
    · rename_i hlt
      have hfalse : f32Lt (compare_graphs ref g) threshold = false := by
        revert hlt
        cases f32Lt (compare_graphs ref g) threshold <;> simp
      have hcur : ∀ t, some (Method.new g ref (compare_graphs ref g)) = some t →
          f32Lt t.similarity threshold = false := by
        intro t ht
        cases ht
        exact hfalse
      split at hm
      · cases hm
        exact hfalse
      · split at hm
        · split at hm
          · exact compare_against_graphs_threshold threshold ref rest _ hcur m hm
          · exact compare_against_graphs_threshold threshold ref rest _ htop m hm
        · exact compare_against_graphs_threshold threshold ref rest _ hcur m hm

/-- C5: for every threshold, every `MethodMatch` returned by
`compare_against_graphs` — and hence every `MethodMatch` inside any
`CompareReport` produced by `Grapher::compare` — does not satisfy
`similarity < threshold` (under f32 comparison semantics, where a NaN
comparison is false). -/
theorem c5_threshold_honoured :
    (∀ (threshold : ℚ) (ref : ControlFlowGraph) (d : Disassembly) (m : Method),
      compare_against_graphs threshold ref d.graphs none = some m →
      f32Lt m.similarity threshold = false) ∧
    (∀ (threshold : ℚ) (dur : Duration) (sample : Disassembly) (refs : List Disassembly),
      ∀ bm ∈ (Grapher.compare threshold dur sample refs).matches,
      ∀ m ∈ bm.matches, f32Lt m.similarity threshold = false) := by
  constructor
  · intro threshold ref d m hm
    exact compare_against_graphs_threshold threshold ref d.graphs none
      (fun t ht => Option.noConfusion ht) m hm
  · intro threshold dur sample refs bm hbm m hmm
    simp only [Grapher.compare, List.mem_map] at hbm
    obtain ⟨r, -, rfl⟩ := hbm
    have hmm2 : m ∈ r.graphs.filterMap
        (fun rg => compare_against_graphs threshold rg sample.graphs none) := hmm
    rw [List.mem_filterMap] at hmm2
    obtain ⟨rg, -, hrg⟩ := hmm2
    exact compare_against_graphs_threshold threshold rg sample.graphs none
      (fun t ht => Option.noConfusion ht) m hrg

/-- Disassembly holding the single-block graph `graphS` (shared sample data). -/
def disS1 : Disassembly := ⟨"d1", "p1", [graphS]⟩

/-- Witness for C5 at a concrete matcher run (threshold 0, self comparison). -/
theorem c5_threshold_honoured_witness :
    f32Lt (Method.new graphS graphS (some 1)).similarity 0 = false :=
  c5_threshold_honoured.1 0 graphS disS1 (Method.new graphS graphS (some 1)) (by decide)

/-! ## C6: self-similarity -/

theorem compare_graphs_ge1_eq_one {a b : ControlFlowGraph}
    (h : f32Ge1 (compare_graphs a b) = true) : compare_graphs a b = some 1 := by
  cases hc : compare_graphs a b with
  | none =>
    rw [hc] at h
    simp [f32Ge1] at h
  | some q =>
    rw [hc] at h
    simp only [f32Ge1, decide_eq_true_eq] at h
    have hle := (compare_graphs_bounds hc).2
    rw [le_antisymm hle h]

theorem compare_against_graphs_self (threshold : ℚ) (F : ControlFlowGraph)
    (hτ : threshold ≤ 1) :
    ∀ (gs : List ControlFlowGraph) (top : Option Method), F ∈ gs →
      ∃ m, compare_against_graphs threshold F gs top = some m ∧ m.similarity = some 1
  | [], _, hF => absurd hF (List.not_mem_nil F)
  | g :: rest, top, hF => by
    by_cases hge : f32Ge1 (compare_graphs F g) = true
    · have hval : compare_graphs F g = some 1 := compare_graphs_ge1_eq_one hge
      have hlt : f32Lt (compare_graphs F g) threshold = false := by
        rw [hval]
        simp only [f32Lt, decide_eq_false_iff_not]
        exact not_lt.mpr hτ
      refine ⟨Method.new g F (compare_graphs F g), ?_, ?_⟩
      · simp only [compare_against_graphs, hlt, Bool.false_eq_true, if_false, hge, if_true]
      · simp only [Method.new, hval]
    · have hgF : F ≠ g := by
        intro e
        rw [← e, compare_graphs_self F] at hge
        simp [f32Ge1] at hge
      have hFrest : F ∈ rest := by
        rcases List.mem_cons.mp hF with h | h
        · exact absurd h hgF
        · exact h
      have hge' : f32Ge1 (compare_graphs F g) = false := by
        revert hge
        cases f32Ge1 (compare_graphs F g) <;> simp
      by_cases hlt : f32Lt (compare_graphs F g) threshold = true
      · obtain ⟨m, hm, hsim⟩ := compare_against_graphs_self threshold F hτ rest top hFrest
        refine ⟨m, ?_, hsim⟩
        simp only [compare_against_graphs, hlt, if_true]
        exact hm
      · have hlt' : f32Lt (compare_graphs F g) threshold = false := by
          revert hlt
          cases f32Lt (compare_graphs F g) threshold <;> simp
        cases top with
        | none =>
          obtain ⟨m, hm, hsim⟩ := compare_against_graphs_self threshold F hτ rest
            (some (Method.new g F (compare_graphs F g))) hFrest
          refine ⟨m, ?_, hsim⟩
          simp only [compare_against_graphs, hlt', Bool.false_eq_true, if_false, hge']
          exact hm
        | some t =>
          by_cases hgt : f32Gt (compare_graphs F g) t.similarity = true
          · obtain ⟨m, hm, hsim⟩ := compare_against_graphs_self threshold F hτ rest
              (some (Method.new g F (compare_graphs F g))) hFrest
            refine ⟨m, ?_, hsim⟩
            simp only [compare_against_graphs, hlt', Bool.false_eq_true, if_false, hge', hgt,
              if_true]
            exact hm
          · have hgt' : f32Gt (compare_graphs F g) t.similarity = false := by
              revert hgt
              cases f32Gt (compare_graphs F g) t.similarity <;> simp
            obtain ⟨m, hm, hsim⟩ := compare_against_graphs_self threshold F hτ rest
              (some t) hFrest
            refine ⟨m, ?_, hsim⟩
            simp only [compare_against_graphs, hlt', Bool.false_eq_true, if_false, hge', hgt']
            exact hm

theorem filterMap_length_of_all_some {α β : Type} (f : α → Option β) :
    ∀ (l : List α), (∀ a ∈ l, ∃ b, f a = some b) → (l.filterMap f).length = l.length
  | [], _ => rfl
  | a :: l, h => by
    obtain ⟨b, hb⟩ := h a (List.mem_cons_self a l)
    rw [List.filterMap_cons, hb]
    simp only [List.length_cons]
    rw [filterMap_length_of_all_some f l (fun x hx => h x (List.mem_cons_of_mem a hx))]

theorem sum_sims_all_one : ∀ (ms : List Method), (∀ m ∈ ms, m.similarity = some 1) →
    sum_sims ms = some (ms.length : ℚ)
  | [], _ => by simp [sum_sims]
  | m :: ms, h => by
    rw [sum_sims, h m (List.mem_cons_self m ms),
      sum_sims_all_one ms (fun x hx => h x (List.mem_cons_of_mem m hx))]
    simp only [List.length_cons, Option.some.injEq]
    push_cast
    ring

theorem binary_new_sim_one (src dst : String) (ms : List Method) (hne : ms ≠ [])
    (h : ∀ m ∈ ms, m.similarity = some 1) : (Binary.new src dst ms).similarity = some 1 := by
  unfold Binary.new
  simp only
  rw [if_neg (fun e => hne (List.length_eq_zero.mp e)), sum_sims_all_one ms h]
  simp only [Option.some.injEq]
  exact div_self (by exact_mod_cast fun e => hne (List.length_eq_zero.mp e))

/-- C6 amended: for every disassembly with at least one function graph and
every threshold at most `1.0`, every graph is perfectly similar to itself,
and the self-compare report contains exactly one `BinaryMatch` whose
similarity is `1.0` and all of whose `MethodMatch` entries have similarity
`1.0`.  (The original claim fails for a disassembly with no graphs, whose
self-compare `BinaryMatch` has NaN similarity.) -/
theorem c6_self_similarity_amended :
    ∀ (d : Disassembly) (threshold : ℚ) (dur : Duration),
      d.graphs ≠ [] → threshold ≤ 1 →
      (∀ g : ControlFlowGraph, compare_graphs g g = some 1) ∧
      ((Grapher.compare threshold dur d [d]).matches.map Binary.similarity = [some 1]) ∧
      (∀ bm ∈ (Grapher.compare threshold dur d [d]).matches,
        ∀ m ∈ bm.matches, m.similarity = some 1) := by
  intro d threshold dur hne hτ
  have hms : ∀ m ∈ d.graphs.filterMap
      (fun rg => compare_against_graphs threshold rg d.graphs none),
      m.similarity = some 1 := by
    intro m hm
    rw [List.mem_filterMap] at hm
    obtain ⟨rg, hrg, hres⟩ := hm
    obtain ⟨m2, hm2, hsim⟩ := compare_against_graphs_self threshold rg hτ d.graphs none hrg
    rw [hres] at hm2
    injection hm2 with hm2
    rw [hm2]
    exact hsim
  have hlen : (d.graphs.filterMap
      (fun rg => compare_against_graphs threshold rg d.graphs none)).length
      = d.graphs.length := by
    refine filterMap_length_of_all_some _ d.graphs ?_
    intro rg hrg
    obtain ⟨m2, hm2, -⟩ := compare_against_graphs_self threshold rg hτ d.graphs none hrg
    exact ⟨m2, hm2⟩
  have hmsne : d.graphs.filterMap
      (fun rg => compare_against_graphs threshold rg d.graphs none) ≠ [] := by
    intro e
    have := hlen
    rw [e] at this
    exact hne (List.length_eq_zero.mp this.symm)
  refine ⟨compare_graphs_self, ?_, ?_⟩
  · show [(compare_graph_sets threshold d d).similarity] = [some 1]
    have : (compare_graph_sets threshold d d).similarity = some 1 :=
      binary_new_sim_one d.name d.name _ hmsne hms
    rw [this]
  · intro bm hbm m hm
    have hbm2 : bm = compare_graph_sets threshold d d := by
      have : (Grapher.compare threshold dur d [d]).matches
          = [compare_graph_sets threshold d d] := rfl
      rw [this] at hbm
      exact List.mem_singleton.mp hbm
    rw [hbm2] at hm
    exact hms m hm

/-- The empty disassembly (counterexample data for C6). -/
def disEmpty : Disassembly := ⟨"e", "pe", []⟩

/-- C6 counterexample: for a disassembly with no graphs, the self-compare
report's single `BinaryMatch` has NaN similarity (modelled `none`), not
`1.0`, because `BinaryMatch::new` divides by the zero length of its empty
match list. -/
theorem c6_self_similarity_counterexample :
    (Grapher.compare 0 ⟨0, 0⟩ disEmpty [disEmpty]).matches.map Binary.similarity = [none] ∧
    (Grapher.compare 0 ⟨0, 0⟩ disEmpty [disEmpty]).matches.map Binary.similarity ≠ [some 1] :=
  ⟨by decide, by decide⟩

/-- Witness for the amended C6 at a concrete one-graph disassembly. -/
theorem c6_self_similarity_amended_witness :
    (Grapher.compare 0 ⟨0, 0⟩ disS1 [disS1]).matches.map Binary.similarity = [some 1] :=
  (c6_self_similarity_amended disS1 0 ⟨0, 0⟩ (by decide) (by norm_num)).2.1

/-! ## C7: every similarity lies in the unit interval -/

theorem compare_against_graphs_provenance (threshold : ℚ) (ref : ControlFlowGraph) :
    ∀ (gs : List ControlFlowGraph) (top : Option Method) (m : Method),
      compare_against_graphs threshold ref gs top = some m →
      top = some m ∨ ∃ g ∈ gs, m = Method.new g ref (compare_graphs ref g)
  | [], _, m, hm => Or.inl hm
  | g :: rest, top, m, hm => by
    simp only [compare_against_graphs] at hm
    split at hm
    · rcases compare_against_graphs_provenance threshold ref rest top m hm with h | ⟨g2, hg2, he⟩
      · exact Or.inl h
      · exact Or.inr ⟨g2, List.mem_cons_of_mem g hg2, he⟩
    · split at hm
      · cases hm
        exact Or.inr ⟨g, List.mem_cons_self g rest, rfl⟩
      · split at hm
        · split at hm
          · rcases compare_against_graphs_provenance threshold ref rest _ m hm
              with h | ⟨g2, hg2, he⟩
            · injection h with h
              exact Or.inr ⟨g, List.mem_cons_self g rest, h.symm⟩
            · exact Or.inr ⟨g2, List.mem_cons_of_mem g hg2, he⟩
          · rcases compare_against_graphs_provenance threshold ref rest _ m hm
              with h | ⟨g2, hg2, he⟩
            · exact Or.inl h
            · exact Or.inr ⟨g2, List.mem_cons_of_mem g hg2, he⟩
        · rcases compare_against_graphs_provenance threshold ref rest _ m hm
            with h | ⟨g2, hg2, he⟩
          · injection h with h
            exact Or.inr ⟨g, List.mem_cons_self g rest, h.symm⟩
          · exact Or.inr ⟨g2, List.mem_cons_of_mem g hg2, he⟩

theorem sum_sims_bounds : ∀ (ms : List Method),
    (∀ m ∈ ms, ∃ q, m.similarity = some q ∧ 0 ≤ q ∧ q ≤ 1) →
    ∃ s, sum_sims ms = some s ∧ 0 ≤ s ∧ s ≤ (ms.length : ℚ)
  | [], _ => ⟨0, rfl, le_refl 0, by simp⟩
  | m :: ms, h => by
    obtain ⟨q, hq, hq0, hq1⟩ := h m (List.mem_cons_self m ms)
    obtain ⟨s, hs, hs0, hs1⟩ := sum_sims_bounds ms (fun x hx => h x (List.mem_cons_of_mem m hx))
    refine ⟨q + s, ?_, by linarith, ?_⟩
    · rw [sum_sims, hq, hs]
    · rw [List.length_cons]
      push_cast
      linarith

theorem binary_new_sim_bounds (src dst : String) (ms : List Method) (hne : ms ≠ [])
    (h : ∀ m ∈ ms, ∃ q, m.similarity = some q ∧ 0 ≤ q ∧ q ≤ 1) :
    ∃ q, (Binary.new src dst ms).similarity = some q ∧ 0 ≤ q ∧ q ≤ 1 := by
  obtain ⟨s, hs, hs0, hs1⟩ := sum_sims_bounds ms h
  have hlen : ms.length ≠ 0 := fun e => hne (List.length_eq_zero.mp e)
  have hpos : (0 : ℚ) < (ms.length : ℚ) := by exact_mod_cast Nat.pos_of_ne_zero hlen
  refine ⟨s / (ms.length : ℚ), ?_, div_nonneg hs0 (le_of_lt hpos), (div_le_one hpos).mpr hs1⟩
  unfold Binary.new
  simp only
  rw [if_neg hlen, hs]

/-- C7 amended: instruction-set and block similarities always lie in
`[0, 1]`.  Provided every compared graph has a nonempty block list, graph
similarities are finite values in `[0, 1]`, every `MethodMatch` in the
report carries a finite similarity in `[0, 1]`, and a `BinaryMatch`
similarity is NaN (`none`) exactly when its match list is empty, otherwise
it is a finite value in `[0, 1]`.  (The original claim fails when a graph
has no blocks: `compare_graphs` then divides `0.0` by `0.0` and the NaN
propagates into a `MethodMatch` of a non-empty `BinaryMatch`.) -/
theorem c7_range_amended :
    (∀ xs ys : List String, 0 ≤ compare_instructions xs ys ∧ compare_instructions xs ys ≤ 1) ∧
    (∀ (lB : List BasicBlock) (li : Nat) (rB : List BasicBlock) (ri : Nat),
      0 ≤ compare_blocks lB li rB ri ∧ compare_blocks lB li rB ri ≤ 1) ∧
    (∀ s t : ControlFlowGraph, s.blocks ≠ [] → t.blocks ≠ [] →
      ∃ q, compare_graphs s t = some q ∧ 0 ≤ q ∧ q ≤ 1) ∧
    (∀ (threshold : ℚ) (dur : Duration) (sample : Disassembly) (refs : List Disassembly),
      (∀ g ∈ sample.graphs, g.blocks ≠ []) →
      (∀ r ∈ refs, ∀ g ∈ r.graphs, g.blocks ≠ []) →
      ∀ bm ∈ (Grapher.compare threshold dur sample refs).matches,
        (∀ m ∈ bm.matches, ∃ q, m.similarity = some q ∧ 0 ≤ q ∧ q ≤ 1) ∧
        (bm.matches = [] ↔ bm.similarity = none) ∧
        (∀ q, bm.similarity = some q → 0 ≤ q ∧ q ≤ 1)) := by
  refine ⟨fun xs ys => ⟨compare_instructions_nonneg xs ys, compare_instructions_le_one xs ys⟩,
    fun lB li rB ri => ⟨compare_blocks_nonneg lB li rB ri, compare_blocks_le_one lB li rB ri⟩,
    fun s t hs ht => compare_graphs_some_of_ne_nil hs ht, ?_⟩
  intro threshold dur sample refs hsample hrefs bm hbm
  simp only [Grapher.compare, List.mem_map] at hbm
  obtain ⟨r, hr, rfl⟩ := hbm
  have hmethods : ∀ m ∈ r.graphs.filterMap
      (fun rg => compare_against_graphs threshold rg sample.graphs none),
      ∃ q, m.similarity = some q ∧ 0 ≤ q ∧ q ≤ 1 := by
    intro m hm
    rw [List.mem_filterMap] at hm
    obtain ⟨rg, hrg, hres⟩ := hm
    rcases compare_against_graphs_provenance threshold rg sample.graphs none m hres
      with h | ⟨g, hg, he⟩
    · exact absurd h (by simp)
    · obtain ⟨q, hq, hq0, hq1⟩ := compare_graphs_some_of_ne_nil
        (hrefs r hr rg hrg) (hsample g hg)
      refine ⟨q, ?_, hq0, hq1⟩
      rw [he]
      exact hq
  refine ⟨hmethods, ?_, ?_⟩
  · constructor
    · intro he
      have : (compare_graph_sets threshold sample r).matches = [] := he
      show (Binary.new sample.name r.name _).similarity = none
      unfold Binary.new
      simp only
      rw [if_pos (by rw [show r.graphs.filterMap
        (fun rg => compare_against_graphs threshold rg sample.graphs none) = [] from he]; rfl)]
    · intro hnone
      by_contra hne
      obtain ⟨q, hq, -, -⟩ := binary_new_sim_bounds sample.name r.name
        (r.graphs.filterMap (fun rg => compare_against_graphs threshold rg sample.graphs none))
        hne hmethods
      have hcontra : (none : Option ℚ) = some q := hnone.symm.trans hq
      exact Option.noConfusion hcontra
  · intro q hq
    by_cases hne : r.graphs.filterMap
        (fun rg => compare_against_graphs threshold rg sample.graphs none) = []
    · have hnone : (compare_graph_sets threshold sample r).similarity = none := by
        show (Binary.new sample.name r.name _).similarity = none
        unfold Binary.new
        simp only
        rw [if_pos (by rw [hne]; rfl)]
      have hcontra : (none : Option ℚ) = some q := hnone.symm.trans hq
      exact Option.noConfusion hcontra
    · obtain ⟨q2, hq2, h0, h1⟩ := binary_new_sim_bounds sample.name r.name
        (r.graphs.filterMap (fun rg => compare_against_graphs threshold rg sample.graphs none))
        hne hmethods
      have heq : some q2 = some q := hq2.symm.trans hq
      injection heq with heq
      rw [← heq]
      exact ⟨h0, h1⟩

/-- Control flow graph with an empty block list (counterexample data). -/
def graphE : ControlFlowGraph := ControlFlowGraph.new "e" 0 []

/-- Reference disassembly holding only the empty-block graph. -/
def disR1 : Disassembly := ⟨"dr", "pr", [graphE]⟩

/-- C7 counterexample: comparing a one-block sample against a reference
whose function graph has no blocks produces a `MethodMatch` whose
similarity is NaN (`none`) inside a `BinaryMatch` with a non-empty match
list (whose aggregate similarity is then NaN as well) — so not every
similarity lies in `[0, 1]`, and NaN appears outside an empty
`BinaryMatch`. -/
theorem c7_range_counterexample :
    (Grapher.compare 0 ⟨0, 0⟩ disS1 [disR1]).matches.map
        (fun bm => (bm.similarity, bm.matches.map Method.similarity))
      = [(none, [none])] := by decide

/-- Witness for the amended C7 at concrete inputs. -/
theorem c7_range_amended_witness :
    (∃ q, compare_graphs graphS graphT = some q ∧ 0 ≤ q ∧ q ≤ 1) ∧
    ((compare_graph_sets 0 disS1 disS1).matches = [] ↔
      (compare_graph_sets 0 disS1 disS1).similarity = none) :=
  ⟨c7_range_amended.2.2.1 graphS graphT (by decide) (by decide),
   ((c7_range_amended.2.2.2 0 ⟨0, 0⟩ disS1 [disS1] (by decide) (by decide)
      (compare_graph_sets 0 disS1 disS1) (List.mem_singleton.mpr rfl))).2.1⟩

/-! ## C8: subset size and membership -/

/-- C8: under the `rand::seq::index::sample` contract (the drawn index list
has exactly `n_args` entries, all below `graphs.len()`), the subset has
exactly `⌊len · clamp(ratio, 0, 1)⌋` graphs and every graph of the subset
is a member of the original disassembly. -/
theorem c8_to_subset_bound :
    ∀ (d : Disassembly) (ratio : ℚ) (subset_indices : List Nat),
      subset_indices.length = n_args d ratio →
      (∀ i ∈ subset_indices, i < d.graphs.length) →
      (to_subset d subset_indices).graphs.length
          = (⌊(d.graphs.length : ℚ) * min (max ratio 0) 1⌋).toNat ∧
      ∀ g ∈ (to_subset d subset_indices).graphs, g ∈ d.graphs := by
  intro d ratio subset_indices hlen hbound
  constructor
  · show (subset_indices.map _).length = _
    rw [List.length_map, hlen]
    rfl
  · intro g hg
    simp only [to_subset, List.mem_map] at hg
    obtain ⟨i, hi, rfl⟩ := hg
    have hilt := hbound i hi
    rw [List.getD_eq_getElem?_getD, List.getElem?_eq_getElem hilt, Option.getD_some]
    exact List.getElem_mem hilt

/-- Witness for C8 at ratio 1 on a one-graph disassembly with index draw
`[0]`. -/
theorem c8_to_subset_bound_witness :
    (to_subset disS1 [0]).graphs.length
        = (⌊(disS1.graphs.length : ℚ) * min (max 1 0) 1⌋).toNat ∧
    ∀ g ∈ (to_subset disS1 [0]).graphs, g ∈ disS1.graphs :=
  c8_to_subset_bound disS1 1 [0]
    (by norm_num [n_args, clampRatio, disS1]) (by decide)

/-! ## C10: the fingerprints depend only on the instruction bytes -/

/-- C10: two graphs built from block lists of equal length carrying
identical in-order instruction byte sequences hash identically and compare
to `1.0`, regardless of names, offsets, and `in_refs`/`out_refs` — provided
every block's fingerprint was produced by `BasicBlock::new` (the stated
well-formedness hypothesis), since both fingerprints are computed from
instruction bytes only. -/
theorem c10_hash_short_circuit :
    ∀ (n1 n2 : String) (o1 o2 : Nat) (bs1 bs2 : List BasicBlock),
      (∀ b ∈ bs1, b.hash = String.join (b.instructions.map (fun i => i.bytes))) →
      (∀ b ∈ bs2, b.hash = String.join (b.instructions.map (fun i => i.bytes))) →
      bs1.length = bs2.length →
      bs1.map (fun b => b.instructions.map (fun i => i.bytes))
        = bs2.map (fun b => b.instructions.map (fun i => i.bytes)) →
      (ControlFlowGraph.new n1 o1 bs1).hash = (ControlFlowGraph.new n2 o2 bs2).hash ∧
      compare_graphs (ControlFlowGraph.new n1 o1 bs1) (ControlFlowGraph.new n2 o2 bs2)
        = some 1 := by
  intro n1 n2 o1 o2 bs1 bs2 h1 h2 _ hbytes
  have e1 : bs1.map (fun b => b.hash)
      = (bs1.map (fun b => b.instructions.map (fun i => i.bytes))).map String.join := by
    rw [List.map_map]
    exact List.map_congr_left (fun b hb => h1 b hb)
  have e2 : bs2.map (fun b => b.hash)
      = (bs2.map (fun b => b.instructions.map (fun i => i.bytes))).map String.join := by
    rw [List.map_map]
    exact List.map_congr_left (fun b hb => h2 b hb)
  have hhash : (ControlFlowGraph.new n1 o1 bs1).hash = (ControlFlowGraph.new n2 o2 bs2).hash := by
    show bs1.map (fun b => b.hash) = bs2.map (fun b => b.hash)
    rw [e1, e2, hbytes]
  refine ⟨hhash, ?_⟩
  unfold compare_graphs
  rw [if_pos hhash]

/-- Block with the same bytes as `blkAA` but a different offset and
non-empty edge lists (witness data for C10). -/
def blkAAref : BasicBlock :=
  { BasicBlock.new 7 [⟨"aa"⟩] with in_refs := [0], out_refs := [0] }

/-- Witness for C10: same bytes, different name/offset/edges. -/
theorem c10_hash_short_circuit_witness :
    (ControlFlowGraph.new "x" 0 [blkAA]).hash = (ControlFlowGraph.new "y" 9 [blkAAref]).hash ∧
    compare_graphs (ControlFlowGraph.new "x" 0 [blkAA])
      (ControlFlowGraph.new "y" 9 [blkAAref]) = some 1 :=
  c10_hash_short_circuit "x" "y" 0 9 [blkAA] [blkAAref]
    (by decide) (by decide) (by decide) (by decide)

/-! ## C9: the JSON codec (src/compare_report.rs, serde derive)

The serde data model is embedded as a JSON value tree.  serde_json
serialises a non-finite `f32` (our NaN, `none`) as JSON `null`, and fails to
deserialise `null` back into an `f32`; finite `f32` values round-trip
exactly through serde_json's shortest-representation printing, which the
model reflects by storing the exact rational in the `num` node.  The
derived deserialisers read fields by name. -/

inductive Json where
  | null : Json
  | str : String → Json
  | num : ℚ → Json
  | arr : List Json → Json
  | obj : List (String × Json) → Json

/-- Field lookup in a JSON object (first binding wins, as in serde). -/
def Json.get : Json → String → Option Json
  | .obj fields, key => fields.lookup key
  | _, _ => none

def Json.asStr : Json → Option String
  | .str s => some s
  | _ => none

/-- Deserialising an `f32`: only a number succeeds; `null` (serde_json's
encoding of NaN) is an error. -/
def Json.asF32 : Json → Option ℚ
  | .num q => some q
  | _ => none

/-- Deserialising a `u64`: a non-negative integer number. -/
def Json.asU64 : Json → Option Nat
  | .num q => if q.den = 1 ∧ 0 ≤ q.num then some q.num.toNat else none
  | _ => none

def Json.asArr : Json → Option (List Json)
  | .arr l => some l
  | _ => none

/-- serde_json's `serialize_f32`: NaN becomes `null`, finite values become
numbers. -/
def encF32 : Option ℚ → Json
  | none => Json.null
  | some q => Json.num q

def encU64 (n : Nat) : Json := Json.num (n : ℚ)

/-- Serialisation of `Method` (derived `Serialize`, declaration field
order). -/
def Method.to_json (m : Method) : Json :=
  Json.obj [("old_name", Json.str m.old_name), ("resolved_name", Json.str m.resolved_name),
    ("malware_offset", encU64 m.malware_offset), ("clean_offset", encU64 m.clean_offset),
    ("similarity", encF32 m.similarity)]

/-- Deserialisation of `Method` (derived `Deserialize`): every field must be
present and well-typed. -/
def Method.from_json (j : Json) : Option Method :=
  match (j.get "old_name").bind Json.asStr, (j.get "resolved_name").bind Json.asStr,
    (j.get "malware_offset").bind Json.asU64, (j.get "clean_offset").bind Json.asU64,
    (j.get "similarity").bind Json.asF32 with
  | some a, some b, some c, some d, some e => some ⟨a, b, c, d, some e⟩
  | _, _, _, _, _ => none

/-- Serialisation of `Binary` (derived `Serialize`). -/
def Binary.to_json (b : Binary) : Json :=
  Json.obj [("similarity", encF32 b.similarity), ("source", Json.str b.source),
    ("dest", Json.str b.dest), ("matches", Json.arr (b.matches.map Method.to_json))]

/-- Deserialisation of `Binary` (derived `Deserialize`). -/
def Binary.from_json (j : Json) : Option Binary :=
  match (j.get "similarity").bind Json.asF32, (j.get "source").bind Json.asStr,
    (j.get "dest").bind Json.asStr,
    ((j.get "matches").bind Json.asArr).bind (fun l => l.mapM Method.from_json) with
  | some s, some src, some dst, some ms => some ⟨some s, src, dst, ms⟩
  | _, _, _, _ => none

/-- Serialisation of `std::time::Duration` (serde: `secs`/`nanos`). -/
def Duration.to_json (d : Duration) : Json :=
  Json.obj [("secs", encU64 d.secs), ("nanos", encU64 d.nanos)]

def Duration.from_json (j : Json) : Option Duration :=
  match (j.get "secs").bind Json.asU64, (j.get "nanos").bind Json.asU64 with
  | some s, some n => some ⟨s, n⟩
  | _, _ => none

/-- `CompareReport::to_json` (src/compare_report.rs lines 52-54), at the
level of the serde data model. -/
def CompareReport.to_json (r : CompareReport) : Json :=
  Json.obj [("sample_name", Json.str r.sample_name),
    ("matches", Json.arr (r.matches.map Binary.to_json)),
    ("compute_time", r.compute_time.to_json)]

/-- `CompareReport::from_json` (src/compare_report.rs lines 57-59); `none`
models the deserialisation failure that the Rust code turns into a panic via
`expect`. -/
def CompareReport.from_json (j : Json) : Option CompareReport :=
  match (j.get "sample_name").bind Json.asStr,
    ((j.get "matches").bind Json.asArr).bind (fun l => l.mapM Binary.from_json),
    (j.get "compute_time").bind Duration.from_json with
  | some n, some ms, some t => some ⟨n, ms, t⟩
  | _, _, _ => none

theorem asU64_encU64 (n : Nat) : Json.asU64 (encU64 n) = some n := by
  simp [encU64, Json.asU64]

theorem method_roundtrip (m : Method) (q : ℚ) (h : m.similarity = some q) :
    Method.from_json (Method.to_json m) = some m := by
  have g1 : (Method.to_json m).get "old_name" = some (Json.str m.old_name) := rfl
  have g2 : (Method.to_json m).get "resolved_name" = some (Json.str m.resolved_name) := rfl
  have g3 : (Method.to_json m).get "malware_offset" = some (encU64 m.malware_offset) := rfl
  have g4 : (Method.to_json m).get "clean_offset" = some (encU64 m.clean_offset) := rfl
  have g5 : (Method.to_json m).get "similarity" = some (encF32 m.similarity) := rfl
  unfold Method.from_json
  rw [g1, g2, g3, g4, g5, h]
  simp only [Option.some_bind, Json.asStr, Json.asF32, asU64_encU64, encF32]
  rw [← h]

theorem mapM_method_roundtrip : ∀ (ms : List Method),
    (∀ m ∈ ms, ∃ q, m.similarity = some q) →
    (ms.map Method.to_json).mapM Method.from_json = some ms
  | [], _ => rfl
  | m :: ms, h => by
    obtain ⟨q, hq⟩ := h m (List.mem_cons_self m ms)
    rw [List.map_cons, List.mapM_cons, method_roundtrip m q hq,
      mapM_method_roundtrip ms (fun x hx => h x (List.mem_cons_of_mem m hx))]
    rfl

theorem binary_roundtrip (b : Binary) (q : ℚ) (h : b.similarity = some q)
    (hms : ∀ m ∈ b.matches, ∃ p, m.similarity = some p) :
    Binary.from_json (Binary.to_json b) = some b := by
  have g1 : (Binary.to_json b).get "similarity" = some (encF32 b.similarity) := rfl
  have g2 : (Binary.to_json b).get "source" = some (Json.str b.source) := rfl
  have g3 : (Binary.to_json b).get "dest" = some (Json.str b.dest) := rfl
  have g4 : (Binary.to_json b).get "matches"
      = some (Json.arr (b.matches.map Method.to_json)) := rfl
  unfold Binary.from_json
  rw [g1, g2, g3, g4, h]
  simp only [Option.some_bind, Json.asStr, Json.asF32, Json.asArr, encF32,
    mapM_method_roundtrip b.matches hms]
  rw [← h]

theorem duration_roundtrip (d : Duration) :
    Duration.from_json (Duration.to_json d) = some d := by
  have g1 : (Duration.to_json d).get "secs" = some (encU64 d.secs) := rfl
  have g2 : (Duration.to_json d).get "nanos" = some (encU64 d.nanos) := rfl
  unfold Duration.from_json
  rw [g1, g2]
  simp only [Option.some_bind, asU64_encU64]

theorem mapM_binary_roundtrip : ∀ (bs : List Binary),
    (∀ bm ∈ bs, (∃ q, bm.similarity = some q) ∧ ∀ m ∈ bm.matches, ∃ p, m.similarity = some p) →
    (bs.map Binary.to_json).mapM Binary.from_json = some bs
  | [], _ => rfl
  | b :: bs, h => by
    obtain ⟨⟨q, hq⟩, hms⟩ := h b (List.mem_cons_self b bs)
    rw [List.map_cons, List.mapM_cons, binary_roundtrip b q hq hms,
      mapM_binary_roundtrip bs (fun x hx => h x (List.mem_cons_of_mem b hx))]
    rfl

/-- C9 amended: a JSON round-trip reproduces the report exactly, provided
every similarity in the report is finite (no NaN).  (The unrestricted claim
fails: serde_json writes a NaN `f32` as `null`, which `from_json` cannot
read back into an `f32` — see the counterexample, a report containing the
empty-matches `BinaryMatch` the pipeline itself produces.) -/
theorem c9_json_roundtrip_amended :
    ∀ r : CompareReport,
      (∀ bm ∈ r.matches, (∃ q, bm.similarity = some q) ∧
        ∀ m ∈ bm.matches, ∃ p, m.similarity = some p) →
      CompareReport.from_json (CompareReport.to_json r) = some r := by
  intro r h
  have g1 : (CompareReport.to_json r).get "sample_name" = some (Json.str r.sample_name) := rfl
  have g2 : (CompareReport.to_json r).get "matches"
      = some (Json.arr (r.matches.map Binary.to_json)) := rfl
  have g3 : (CompareReport.to_json r).get "compute_time"
      = some (r.compute_time.to_json) := rfl
  unfold CompareReport.from_json
  rw [g1, g2, g3]
  simp only [Option.some_bind, Json.asStr, Json.asArr, mapM_binary_roundtrip r.matches h,
    duration_roundtrip r.compute_time]

/-- The report produced for a reference with no match above the threshold:
one `BinaryMatch` with an empty match list and NaN similarity
(counterexample data for C9). -/
def cexReport : CompareReport := ⟨"s", [Binary.new "s" "r" []], ⟨0, 0⟩⟩

/-- C9 counterexample: the round-trip fails on a report containing an
empty-matches `BinaryMatch` (whose similarity is NaN): `to_json` writes the
similarity as `null` and `from_json` rejects it, so the round-trip does not
reproduce the report. -/
theorem c9_json_roundtrip_counterexample :
    CompareReport.from_json (CompareReport.to_json cexReport) = none ∧
    CompareReport.from_json (CompareReport.to_json cexReport) ≠ some cexReport := by
  constructor <;> decide

/-- An all-finite report (witness data for C9). -/
def okReport : CompareReport :=
  ⟨"s", [⟨some 1, "s", "s", [Method.new graphS graphS (some 1)]⟩], ⟨1, 2⟩⟩

/-- Witness for the amended C9 at a concrete all-finite report. -/
theorem c9_json_roundtrip_amended_witness :
    CompareReport.from_json (CompareReport.to_json okReport) = some okReport :=
  c9_json_roundtrip_amended okReport
    (by
      intro bm hbm
      simp only [okReport, List.mem_singleton] at hbm
      subst hbm
      refine ⟨⟨1, rfl⟩, ?_⟩
      intro m hm
      simp only [List.mem_singleton] at hm
      subst hm
      exact ⟨1, rfl⟩)

end GoGrapher
